import Mathlib

/-!
Verification of the pybind11_weaver core: the Entity Tree construction walk
(entity_tree.py), the Template Instantiation Normalization pass
(EntityTree._inject_explicit_template_instantiation), and the docstring
injection helper of the Entity contract (entity/entity_base.py).

The sources are shallowly embedded: Python dicts become ordered association
lists (Python 3.7 dicts preserve insertion order), Python sets become lists
with membership-checked insertion, the stateful libclang visitor walks become
folds over the event lists the visitor control flow produces, and cursors
become inductive trees carrying exactly the attributes the code reads.
-/

/-- Cursor kinds used by entity_tree.py (pylibclang cindex.CursorKind values). -/
inductive CursorKind where
  | CXCursor_Namespace
  | CXCursor_ClassDecl
  | CXCursor_StructDecl
  | CXCursor_FunctionDecl
  | CXCursor_CXXMethod
  | CXCursor_FieldDecl
  | CXCursor_ParmDecl
  | CXCursor_CXXBaseSpecifier
  | CXCursor_TemplateRef
  | CXCursor_LinkageSpec
  | CXCursor_OtherKind (code : Nat)
deriving DecidableEq, Repr

/- ------------------------------------------------------------------ -/
/- Python string primitives used by entity_base._inject_docstring and
   entity_tree._get_template_struct_class.                             -/
/- ------------------------------------------------------------------ -/

/-- Index of the last occurrence of a character in a list, if any
(the recursion mirrors scanning from the right). -/
def lastIdxOf (c : Char) : List Char → Option Nat
  | [] => none
  | x :: xs =>
    match lastIdxOf c xs with
    | some i => some (i + 1)
    | none => if x = c then some 0 else none

/-- Python str.rfind for a single-character needle: last index, or -1. -/
def pyRFind (l : List Char) (c : Char) : Int :=
  match lastIdxOf c l with
  | some i => (i : Int)
  | none => -1

/-- Normalize a Python slice endpoint: negative indices count from the end
(clamped at 0 by Nat subtraction), and List.take / List.drop clamp above. -/
def pyNormIdx (len : Nat) (i : Int) : Nat :=
  if i < 0 then len - (-i).toNat else i.toNat

/-- Python s[:i]. -/
def pySliceTo (s : String) (i : Int) : String :=
  String.mk (s.data.take (pyNormIdx s.data.length i))

/-- Python s[i:]. -/
def pySliceFrom (s : String) (i : Int) : String :=
  String.mk (s.data.drop (pyNormIdx s.data.length i))

/-- Python lst[i] with negative-index wraparound; none models IndexError. -/
def pyIndex (l : List String) (i : Int) : Option String :=
  if 0 ≤ i then l.get? i.toNat
  else if 0 ≤ i + l.length then l.get? (i + l.length).toNat
  else none

/-- Python substring test (needle in hay) on character lists. -/
def hasSub (needle : List Char) : List Char → Bool
  | [] => needle.isEmpty
  | x :: rest => needle.isPrefixOf (x :: rest) || hasSub needle rest

/-- Python needle in hay for strings. -/
def strIn (needle hay : String) : Bool :=
  hasSub needle.data hay.data

/- ------------------------------------------------------------------ -/
/- entity/entity_base.py: _inject_docstring                            -/
/- ------------------------------------------------------------------ -/

/-- The raw string literal argument built by the f-strings in
_inject_docstring. -/
def docLit (raw_comment : String) : String :=
  ",R\"_pb11_weaver(" ++ raw_comment ++ ")_pb11_weaver\""

/-- Embedding of entity_base._inject_docstring. cursor.raw_comment is None or
a string; Python truthiness makes both None and the empty string return the
code unchanged. The two insert modes are tested by two consecutive
(non-exclusive) if statements, exactly as in the source. -/
def _inject_docstring (code : String) (raw_comment : Option String) (insert_mode : String) : String :=
  match raw_comment with
  | none => code
  | some rc =>
    if rc = "" then code
    else
      let code1 := if insert_mode = "append" then code ++ docLit rc else code
      if insert_mode = "last_arg" then
        let pos := pyRFind code1.data ')'
        pySliceTo code1 pos ++ docLit rc ++ pySliceFrom code1 pos
      else code1

/- ------------------------------------------------------------------ -/
/- entity_tree.py: _get_template_struct_class                          -/
/- ------------------------------------------------------------------ -/

/-- Embedding of entity_tree._get_template_struct_class. The file at the
cursor's location is given as its splitlines decomposition, and the cursor's
1-based line as an integer; none models the IndexError on an out-of-range
line. The function reads the single source line at the template definition
location and keys the stub prefix on the presence of the substring struct. -/
def _get_template_struct_class (sourceLines : List String) (source_line : Int) : Option String :=
  match pyIndex sourceLines (source_line - 1) with
  | none => none
  | some line_content =>
    some (if strIn "struct" line_content then "extern template struct" else "extern template class")

/- ------------------------------------------------------------------ -/
/- Normalizer data model                                               -/
/- ------------------------------------------------------------------ -/

/-- The attributes of a candidate type that handle_implicit reads, after the
source's processing chain: canonName is
common.safe_type_reference(remove_const_ref_pointer(t).get_canonical()),
isConcreteSpec is common.is_concreate_template of the canonical type's
declaration cursor, defInInputs is
gu.is_cursor_in_inputs(clang_getSpecializedCursorTemplate(type_cursor)), and
defStub is _get_template_struct_class(template_def_cursor) evaluated at the
template definition's source line. -/
structure TyInfo where
  canonName : String
  isConcreteSpec : Bool
  defInInputs : Bool
  defStub : String
deriving DecidableEq, Repr

/-- The attributes of a cursor read by the normalizer visitor: its kind,
gu.is_cursor_in_inputs(cursor), gu.is_cursor_in_inputs(cursor.referenced)
(only meaningful for template references),
common.safe_type_reference(cursor.type), common.is_concreate_template(cursor),
and the processed forms of cursor.type, cursor.result_type and the types of
cursor.get_arguments(). -/
structure NData where
  kind : CursorKind
  inInputs : Bool
  refInInputs : Bool
  typeName : String
  isConcreteTemplate : Bool
  ty : TyInfo
  resultTy : TyInfo
  argTys : List TyInfo
deriving DecidableEq, Repr

/-- A cursor tree as the normalizer visitor sees it. -/
inductive NCursor where
  | node (data : NData) (kids : List NCursor)

/-- The two local accumulators of _inject_explicit_template_instantiation:
explicit_instantiation is a Python set of fully qualified type names, modelled
as a duplicate-free list; implicit_instantiation is a Python dict from type
name to stub prefix, modelled as an insertion-ordered association list. -/
structure ScanState where
  explicit_instantiation : List String
  implicit_instantiation : List (String × String)
deriving DecidableEq, Repr

/-- Python set.add. -/
def setInsert (n : String) (s : List String) : List String :=
  if n ∈ s then s else s ++ [n]

/-- Python dict lookup (first match; keys are unique in all reachable states). -/
def dictLookup (k : String) : List (String × String) → Option String
  | [] => none
  | e :: rest => if e.1 = k then some e.2 else dictLookup k rest

/-- Python d[k] = v: overwrite in place if the key exists, else append. -/
def dictSet (k v : String) (d : List (String × String)) : List (String × String) :=
  if (dictLookup k d).isSome then
    d.map (fun e => if e.1 = k then (k, v) else e)
  else d ++ [(k, v)]

/-- Python del d[k]. -/
def dictDel (k : String) (d : List (String × String)) : List (String × String) :=
  d.filter (fun e => decide (e.1 ≠ k))

/-- The key list of a dict. -/
def dictKeys (d : List (String × String)) : List String :=
  d.map Prod.fst

/-- Embedding of handle_explicit: record the cursor's canonical type name as
explicitly instantiated and drop any implicit entry for it. -/
def handle_explicit (st : ScanState) (instance_type_name : String) : ScanState :=
  { explicit_instantiation := setInsert instance_type_name st.explicit_instantiation,
    implicit_instantiation := dictDel instance_type_name st.implicit_instantiation }

/-- The possible_instances list built at the top of handle_implicit from the
parent cursor's kind. -/
def possible_instances (parent : NData) : List TyInfo :=
  if parent.kind = .CXCursor_FieldDecl ∨ parent.kind = .CXCursor_ParmDecl ∨
      parent.kind = .CXCursor_CXXBaseSpecifier then
    [parent.ty]
  else if parent.kind = .CXCursor_FunctionDecl ∨ parent.kind = .CXCursor_CXXMethod then
    parent.resultTy :: parent.argTys
  else []

/-- The for loop of handle_implicit. Note the first branch mirrors the
source's early return: a candidate whose canonical declaration is not a
concrete template specialization exits the whole function, abandoning all
later candidates. -/
def instLoop (st : ScanState) : List TyInfo → ScanState
  | [] => st
  | t :: rest =>
    if t.isConcreteSpec = false then st
    else
      let st1 :=
        if t.defInInputs = true ∧ t.canonName ∉ st.explicit_instantiation then
          { st with implicit_instantiation := dictSet t.canonName t.defStub st.implicit_instantiation }
        else st
      instLoop st1 rest

/-- Embedding of handle_implicit. -/
def handle_implicit (st : ScanState) (parent : NData) : ScanState :=
  instLoop st (possible_instances parent)

/-- One normalizer visitor invocation either records an explicit
instantiation, inspects the parent of an in-input template reference, or does
nothing; the state update is deferred to stepEv. -/
inductive ScanEvent where
  | explicitEv (instance_type_name : String)
  | implicitEv (parent : NData)
deriving DecidableEq, Repr

/-- The event a single visitor callback emits for cursor d under parent,
mirroring the branch structure of the visitor in
_inject_explicit_template_instantiation. -/
def nodeEvent (parent : NData) (d : NData) : List ScanEvent :=
  if (d.kind = .CXCursor_ClassDecl ∨ d.kind = .CXCursor_StructDecl) ∧ d.isConcreteTemplate = true then
    [.explicitEv d.typeName]
  else if d.kind = .CXCursor_TemplateRef ∧ d.refInInputs = true then
    [.implicitEv parent]
  else []

mutual
/-- Events emitted when clang_visitChildren reaches this cursor under the
given parent: a cursor outside the inputs returns CXChildVisit_Continue and is
skipped with its whole subtree; otherwise its own event is followed by its
children's (CXChildVisit_Recurse). -/
def visitEvents (parent : NData) : NCursor → List ScanEvent
  | .node d kids =>
    if d.inInputs = false then []
    else nodeEvent parent d ++ kidsEvents d kids
/-- Events of a child list, in visitation order. -/
def kidsEvents (parent : NData) : List NCursor → List ScanEvent
  | [] => []
  | k :: rest => visitEvents parent k ++ kidsEvents parent rest
end

/-- Events of the whole scan, started at the translation unit root
(clang_visitChildren(gu.tu.cursor, visitor, ...)): the root's children are
visited with the root cursor as parent. -/
def astEvents : NCursor → List ScanEvent
  | .node d kids => kidsEvents d kids

/-- State update of one visitor event. The visitor's control flow never reads
the accumulators, so the interleaved mutation of the source is exactly a fold
of this step over the event list. -/
def stepEv (st : ScanState) : ScanEvent → ScanState
  | .explicitEv n => handle_explicit st n
  | .implicitEv p => handle_implicit st p

/-- The detection scan of _inject_explicit_template_instantiation, starting
from empty accumulators. -/
def scanAst (t : NCursor) : ScanState :=
  List.foldl stepEv { explicit_instantiation := [], implicit_instantiation := [] } (astEvents t)

/-- The same scan resumed from an arbitrary prior state (used to state
idempotence of running the detection pass twice over the same AST). -/
def scanFrom (st : ScanState) (t : NCursor) : ScanState :=
  List.foldl stepEv st (astEvents t)

/-- Explicit wins: no explicitly instantiated name has a surviving implicit
entry. -/
def ScanPE (st : ScanState) : Prop :=
  ∀ n ∈ st.explicit_instantiation, dictLookup n st.implicit_instantiation = none

/-- The implicit dict has pairwise distinct keys. -/
def ScanUniq (st : ScanState) : Prop :=
  (dictKeys st.implicit_instantiation).Nodup

/-- Every implicit entry's stub prefix is the one the AST determines for its
type name (in the program the prefix is computed from the template
definition cursor, which the canonical type name determines). -/
def ScanVals (pf : String → String) (st : ScanState) : Prop :=
  ∀ e ∈ st.implicit_instantiation, e.2 = pf e.1

/-- The AST determines the stub prefix of every candidate type of every
implicit-use event by its canonical name. -/
def evCoherent (pf : String → String) (l : List ScanEvent) : Prop :=
  ∀ p, ScanEvent.implicitEv p ∈ l → ∀ t ∈ possible_instances p, t.defStub = pf t.canonName

/- ------------------------------------------------------------------ -/
/- Generation unit effects: reload_tu                                  -/
/- ------------------------------------------------------------------ -/

/-- Modelled from the spec: the Generation Unit (gen_unit.py, not among the
sources) owns the translation unit handle and exposes re-parse with appended
synthetic source. Only the re-parse call log matters to the claims, so the
model records the appended source fragments in call order. -/
structure GU where
  reloadArgs : List String
deriving DecidableEq, Repr

/-- Modelled from the spec: gu.reload_tu(init_code) re-parses with the given
appended source fragment; the model appends the fragment to the call log. -/
def reload_tu (gu : GU) (code : String) : GU :=
  { gu with reloadArgs := gu.reloadArgs ++ [code] }

/-- The init_code string built at the end of
_inject_explicit_template_instantiation: one stub line per implicit entry,
prefix then name, joined by newlines. -/
def init_code (implicit_instantiation : List (String × String)) : String :=
  String.intercalate "\n" (implicit_instantiation.map (fun e => e.2 ++ " " ++ e.1 ++ ";"))

/-- Embedding of EntityTree._inject_explicit_template_instantiation: run the
detection scan, then call gu.reload_tu(init_code) unconditionally. -/
def _inject_explicit_template_instantiation (gu : GU) (t : NCursor) : GU × ScanState :=
  let st := scanAst t
  (reload_tu gu (init_code st.implicit_instantiation), st)

/- ------------------------------------------------------------------ -/
/- Entity Tree walk data model (EntityTree._map_from_gu)               -/
/- ------------------------------------------------------------------ -/

/-- The attributes of a cursor read by the Entity Tree walk: kind, spelling,
the signature part of the displayname (meaningful for function-like cursors),
cursor.location rendered as a string, and gu.is_cursor_in_inputs(cursor). -/
structure WData where
  kind : CursorKind
  spelling : String
  sig : String
  location : String
  inInputs : Bool
deriving DecidableEq, Repr

/-- A cursor tree as the walk sees it (the post-normalization translation
unit). -/
inductive WCur where
  | node (data : WData) (kids : List WCur)

/-- The cursor attributes of a walk cursor. -/
def WCur.data : WCur → WData
  | .node d _ => d

/-- The child cursors of a walk cursor. -/
def WCur.kids : WCur → List WCur
  | .node _ ks => ks

/-- Models the AST provider's Cursor.displayname, which Entity.key_in_scope
returns: per the spec's data model (section 3, scope key), for function
declarations the displayname carries the full signature, not just the name,
rendered as name(signature); for other kinds it is the spelling. -/
def displayname (d : WData) : String :=
  if d.kind = .CXCursor_FunctionDecl ∨ d.kind = .CXCursor_CXXMethod then
    d.spelling ++ "(" ++ d.sig ++ ")"
  else d.spelling

/-- An Entity node of the tree under construction: it wraps the cursor it was
created from and owns an insertion-ordered mapping from scope key to child
Entity (Python dicts preserve insertion order). -/
inductive EntNode where
  | mk (cursor : WData) (children : List (String × EntNode))

/-- The wrapped cursor of an Entity. -/
def EntNode.cursor : EntNode → WData
  | .mk c _ => c

/-- The children mapping of an Entity. -/
def EntNode.children : EntNode → List (String × EntNode)
  | .mk _ ch => ch

/-- The children mapping of the tree root (the EntityTree object itself holds
such a mapping and is addressed by the empty path). -/
abbrev Forest := List (String × EntNode)

/-- Embedding of Entity.key_in_scope: the wrapped cursor's displayname. -/
def key_in_scope (e : EntNode) : String :=
  displayname e.cursor

/-- Modelled from the spec: the kind-dispatching factory create_entity lives
in pybind11_weaver/entity/__init__.py, which is not among the sources; per the
spec it returns an Entity wrapping the cursor for bindable declaration kinds
and nothing for cursor kinds that carry no bindable meaning. The set of
bindable kinds is left as a parameter. -/
def create_entity (bindable : CursorKind → Bool) (d : WData) : Option EntNode :=
  if bindable d.kind then some (.mk d []) else none

/-- First entry of an association list with the given key. -/
def assocFind (f : Forest) (k : String) : Option EntNode :=
  match f with
  | [] => none
  | e :: rest => if e.1 = k then some e.2 else assocFind rest k

/-- The children mapping reached by following a path of scope keys from the
root; Entities are identified by such paths, playing the role of the shared
mutable references of the source. -/
def getForest (f : Forest) : List String → Option Forest
  | [] => some f
  | k :: p =>
    match assocFind f k with
    | none => none
    | some n => getForest n.children p

/-- In-place update installing a new child entity at the end of the children
mapping addressed by the path (Python dict insertion appends). -/
def insertAt (f : Forest) : List String → String → EntNode → Forest
  | [], k, nd => f ++ [(k, nd)]
  | k0 :: p, k, nd =>
    f.map (fun e => if e.1 = k0 then (e.1, EntNode.mk e.2.cursor (insertAt e.2.children p k nd)) else e)

/-- Result of _add_child: the new root forest paired with what the function
returned: None because the child was None, None with a logged redeclaration
warning, the (path of the) installed or reused entity, or a failure of the
internal namespace-merge assertion. -/
inductive AddRes where
  | noChild
  | dup (newLoc prevLoc : String)
  | install (path : List String)
  | assertFail
deriving DecidableEq, Repr

/-- Embedding of entity_tree._add_child against the parent entity addressed
by parentPath. A None child is returned unchanged; an existing child with the
same scope key is reused for a namespace cursor (after asserting the existing
entity has no children yet) and is a warned, discarded redeclaration for any
other kind; otherwise the child is installed under its scope key. -/
def _add_child (root : Forest) (parentPath : List String) : Option EntNode → Forest × AddRes
  | none => (root, .noChild)
  | some ch =>
    match getForest root parentPath with
    | none => (root, .assertFail)
    | some pc =>
      match assocFind pc (key_in_scope ch) with
      | some ex =>
        if ch.cursor.kind = .CXCursor_Namespace then
          if ex.children.length = 0 then (root, .install (parentPath ++ [key_in_scope ch]))
          else (root, .assertFail)
        else (root, .dup ch.cursor.location ex.cursor.location)
      | none =>
        (insertAt root parentPath (key_in_scope ch) ch, .install (parentPath ++ [key_in_scope ch]))

/-- State of the _map_from_gu walk: the tree under construction, the worklist
of (cursor, destination entity) pairs, the warning log (new location, previous
location), and the log of every cursor the visitor appended to the worklist. -/
structure WalkState where
  root : Forest
  worklist : List (WCur × List String)
  warnings : List (String × String)
  pushed : List WCur

/-- Embedding of the visitor body of _map_from_gu for one child cursor, with
last_parent pointing at parentPath: cursors outside the inputs are skipped
without recursion; extern C linkage specs are queued against the same parent;
otherwise the factory's candidate entity is installed via _add_child and the
cursor is queued for descent only when _add_child returned an entity. none
models the AssertionError escaping _add_child. -/
def visitChild (bindable : CursorKind → Bool) (st : WalkState) (parentPath : List String) (c : WCur) : Option WalkState :=
  if c.data.inInputs = false then some st
  else if c.data.kind = .CXCursor_LinkageSpec then
    some { st with worklist := st.worklist ++ [(c, parentPath)], pushed := st.pushed ++ [c] }
  else
    match _add_child st.root parentPath (create_entity bindable c.data) with
    | (root1, .install p) =>
      some { st with root := root1, worklist := st.worklist ++ [(c, p)], pushed := st.pushed ++ [c] }
    | (root1, .noChild) => some { st with root := root1 }
    | (root1, .dup nl pl) => some { st with root := root1, warnings := st.warnings ++ [(nl, pl)] }
    | (_, .assertFail) => none

/-- One clang_visitChildren call of the walk: the visitor over each child in
order, stopping at an assertion failure. -/
def visitAll (bindable : CursorKind → Bool) (st : WalkState) (parentPath : List String) : List WCur → Option WalkState
  | [] => some st
  | c :: cs =>
    match visitChild bindable st parentPath c with
    | none => none
    | some st1 => visitAll bindable st1 parentPath cs

/-- Python worklist.pop(): remove and return the LAST element (the source's
comments speak of BFS, but list.pop() is LIFO). -/
def popLast (l : List (WCur × List String)) : Option (List (WCur × List String) × (WCur × List String)) :=
  match l.getLast? with
  | none => none
  | some x => some (l.dropLast, x)

/-- Outcome of the walk loop: fuel exhaustion (the loop in the source is
unbounded; fuel only makes the model total), an AssertionError aborting the
construction, or normal completion. -/
inductive WalkResult where
  | outOfFuel
  | assertFail
  | done (st : WalkState)

/-- The while loop of _map_from_gu: pop the last worklist item, visit the
popped cursor's children against the popped destination entity, repeat. -/
def runWalk (bindable : CursorKind → Bool) : Nat → WalkState → WalkResult
  | 0, st =>
    match st.worklist with
    | [] => .done st
    | _ :: _ => .outOfFuel
  | fuel + 1, st =>
    match popLast st.worklist with
    | none => .done st
    | some (rest, (c, path)) =>
      match visitAll bindable { st with worklist := rest } path c.kids with
      | none => .assertFail
      | some st1 => runWalk bindable fuel st1

/-- The initial walk state: empty tree, the worklist seeded with the
translation unit root cursor paired with the tree root (empty path). -/
def initWalk (tu : WCur) : WalkState :=
  { root := [], worklist := [(tu, [])], warnings := [], pushed := [] }

/-- Embedding of EntityTree._map_from_gu: run the normalization pass (which
unconditionally re-parses), then drive the worklist walk over the
post-normalization translation unit tree. -/
def _map_from_gu (gu : GU) (scanT : NCursor) (bindable : CursorKind → Bool) (fuel : Nat) (walkT : WCur) : GU × WalkResult :=
  let r := _inject_explicit_template_instantiation gu scanT
  (r.1, runWalk bindable fuel (initWalk walkT))

mutual
/-- Every Entity of this node's subtree (itself included) wraps an in-inputs
cursor. -/
def nodeOk : EntNode → Bool
  | .mk c ch => c.inInputs && forestOk ch
/-- Every Entity of the forest wraps an in-inputs cursor. -/
def forestOk : Forest → Bool
  | [] => true
  | e :: rest => nodeOk e.2 && forestOk rest
end

/-- The inclusion invariant checked on a finished walk: every Entity in the
tree wraps an in-inputs cursor and every cursor the visitor ever queued for
descent is in-inputs; trivially true when the walk did not finish normally. -/
def resultOk (r : WalkResult) : Bool :=
  match r with
  | .done st => forestOk st.root && st.pushed.all (fun c => c.data.inInputs)
  | _ => true

/-- Invariant maintained by every step of the walk: the tree under
construction only holds Entities wrapping in-inputs cursors, and only
in-inputs cursors were ever queued by the visitor. -/
def WalkInv (st : WalkState) : Prop :=
  forestOk st.root = true ∧ ∀ c ∈ st.pushed, (WCur.data c).inInputs = true

/- ------------------------------------------------------------------ -/
/- Example inputs used by counterexample and witness theorems          -/
/- ------------------------------------------------------------------ -/

/-- Candidate TyInfo for the C++ type void: not a template specialization. -/
def voidTyC2 : TyInfo :=
  { canonName := "void", isConcreteSpec := false, defInInputs := false, defStub := "" }

/-- Candidate TyInfo for a used specialization Box of int declared in the
inputs. -/
def boxTyC2 : TyInfo :=
  { canonName := "Box<int>", isConcreteSpec := true, defInInputs := true,
    defStub := "extern template struct" }

/-- Parent cursor of a template reference: a function declaration whose
return type is void and whose single parameter has type Box of int. -/
def parentC2 : NData :=
  { kind := .CXCursor_FunctionDecl, inInputs := true, refInInputs := true,
    typeName := "void (Box<int>)", isConcreteTemplate := false,
    ty := voidTyC2, resultTy := voidTyC2, argTys := [boxTyC2] }

/-- The same specialization used from a parameter declaration parent, where
it is the only candidate. -/
def parmParentC2 : NData :=
  { kind := .CXCursor_ParmDecl, inInputs := true, refInInputs := true,
    typeName := "Box<int>", isConcreteTemplate := false,
    ty := boxTyC2, resultTy := voidTyC2, argTys := [] }

/-- The empty scan state. -/
def emptyScan : ScanState :=
  { explicit_instantiation := [], implicit_instantiation := [] }

/-- A factory treating every cursor kind as bindable (namespaces, classes and
functions all are in the real factory). -/
def bindAll : CursorKind → Bool := fun _ => true

/-- The root forest of a finished walk, if it finished. -/
def doneRoot : WalkResult → Option Forest
  | .done st => some st.root
  | _ => none

/-- A walk state with nothing in it. -/
def emptyWalkState : WalkState :=
  { root := [], worklist := [], warnings := [], pushed := [] }

/-- namespace a { namespace b { void f(); } } namespace a { namespace b { void g(); } } -/
def c1f : WCur :=
  .node { kind := .CXCursor_FunctionDecl, spelling := "f", sig := "", location := "input.h:2", inInputs := true } []

/-- First reopening of the inner namespace b, holding f. -/
def c1b1 : WCur :=
  .node { kind := .CXCursor_Namespace, spelling := "b", sig := "", location := "input.h:1", inInputs := true } [c1f]

/-- First reopening of the outer namespace a. -/
def c1a1 : WCur :=
  .node { kind := .CXCursor_Namespace, spelling := "a", sig := "", location := "input.h:1", inInputs := true } [c1b1]

/-- The function g of the second reopening. -/
def c1g : WCur :=
  .node { kind := .CXCursor_FunctionDecl, spelling := "g", sig := "", location := "input.h:5", inInputs := true } []

/-- Second reopening of the inner namespace b, holding g. -/
def c1b2 : WCur :=
  .node { kind := .CXCursor_Namespace, spelling := "b", sig := "", location := "input.h:4", inInputs := true } [c1g]

/-- Second reopening of the outer namespace a. -/
def c1a2 : WCur :=
  .node { kind := .CXCursor_Namespace, spelling := "a", sig := "", location := "input.h:4", inInputs := true } [c1b2]

/-- Translation unit root of the nested-reopening input. -/
def c1tu : WCur :=
  .node { kind := .CXCursor_OtherKind 350, spelling := "", sig := "", location := "", inInputs := true } [c1a1, c1a2]

/-- Cursor data of the flat merge example namespace ns { void f(); } namespace ns { void g(); }. -/
def c1df : WData :=
  { kind := .CXCursor_FunctionDecl, spelling := "f", sig := "", location := "input.h:1", inInputs := true }

/-- Cursor data of g in the flat merge example. -/
def c1dg : WData :=
  { kind := .CXCursor_FunctionDecl, spelling := "g", sig := "", location := "input.h:2", inInputs := true }

/-- First reopening of ns in the flat merge example. -/
def c1ns1 : WCur :=
  .node { kind := .CXCursor_Namespace, spelling := "ns", sig := "", location := "input.h:1", inInputs := true } [.node c1df []]

/-- Second reopening of ns in the flat merge example. -/
def c1ns2 : WCur :=
  .node { kind := .CXCursor_Namespace, spelling := "ns", sig := "", location := "input.h:2", inInputs := true } [.node c1dg []]

/-- Translation unit root of the flat merge example. -/
def c1flatTu : WCur :=
  .node { kind := .CXCursor_OtherKind 350, spelling := "", sig := "", location := "", inInputs := true } [c1ns1, c1ns2]

/-- class A; redeclared at a second location. -/
def dA1 : WData :=
  { kind := .CXCursor_ClassDecl, spelling := "A", sig := "", location := "input.h:1", inInputs := true }

/-- The redeclaration cursor of A. -/
def dA2 : WData :=
  { kind := .CXCursor_ClassDecl, spelling := "A", sig := "", location := "input.h:2", inInputs := true }

/-- A walk state whose root already holds the first A entity. -/
def stC4 : WalkState :=
  { root := [("A", .mk dA1 [])], worklist := [], warnings := [], pushed := [] }

/-- A cursor whose kind the factory declines (e.g. a using declaration). -/
def c10c : WCur :=
  .node { kind := .CXCursor_OtherKind 35, spelling := "u", sig := "", location := "input.h:9", inInputs := true } []

/-- void f(int); -/
def d8f1 : WData :=
  { kind := .CXCursor_FunctionDecl, spelling := "f", sig := "int", location := "input.h:1", inInputs := true }

/-- void f(double); -/
def d8f2 : WData :=
  { kind := .CXCursor_FunctionDecl, spelling := "f", sig := "double", location := "input.h:2", inInputs := true }

/-- An out-of-inputs function cursor, for the input-filtering claim. -/
def d7out : WData :=
  { kind := .CXCursor_FunctionDecl, spelling := "ext", sig := "", location := "other.h:1", inInputs := false }

/-- An in-inputs function cursor. -/
def d7f : WData :=
  { kind := .CXCursor_FunctionDecl, spelling := "f", sig := "", location := "input.h:2", inInputs := true }

/-- A namespace holding one in-input and one out-of-input declaration. -/
def c7ns : WCur :=
  .node { kind := .CXCursor_Namespace, spelling := "n", sig := "", location := "input.h:1", inInputs := true }
    [.node d7out [], .node d7f []]

/-- Translation unit root for the input-filtering witness. -/
def c7tu : WCur :=
  .node { kind := .CXCursor_OtherKind 350, spelling := "", sig := "", location := "", inInputs := true } [c7ns]

/-- Filler NData fields for normalizer example cursors. -/
def defND : NData :=
  { kind := .CXCursor_OtherKind 0, inInputs := true, refInInputs := false, typeName := "",
    isConcreteTemplate := false, ty := voidTyC2, resultTy := voidTyC2, argTys := [] }

/-- A parameter declaration of type Box of int. -/
def n3parm : NData :=
  { defND with kind := .CXCursor_ParmDecl, ty := boxTyC2, typeName := "Box<int>" }

/-- The template reference under the parameter declaration. -/
def n3tref : NData :=
  { defND with kind := .CXCursor_TemplateRef, refInInputs := true }

/-- An explicit instantiation cursor of Vec of int. -/
def n3class : NData :=
  { defND with kind := .CXCursor_ClassDecl, isConcreteTemplate := true, typeName := "Vec<int>" }

/-- Normalizer example AST: a parameter using Box of int implicitly, and an
explicit instantiation of Vec of int. -/
def n3tu : NCursor :=
  .node defND [.node n3parm [.node n3tref []], .node n3class []]

/- ------------------------------------------------------------------ -/
/- Helper lemmas: last index of a character                            -/
/- ------------------------------------------------------------------ -/

theorem lastIdxOf_get (c : Char) : ∀ (l : List Char) (i : Nat), lastIdxOf c l = some i → l.get? i = some c := by
  intro l
  induction l with
  | nil => intro i h; simp [lastIdxOf] at h
  | cons x xs ih =>
    intro i h
    simp only [lastIdxOf] at h
    cases hrec : lastIdxOf c xs with
    | some k =>
      rw [hrec] at h
      cases h
      simpa using ih k hrec
    | none =>
      rw [hrec] at h
      by_cases hx : x = c
      · rw [if_pos hx] at h
        cases h
        simp [hx]
      · rw [if_neg hx] at h
        cases h

theorem lastIdxOf_none (c : Char) : ∀ (l : List Char), lastIdxOf c l = none → ∀ k, l.get? k ≠ some c := by
  intro l
  induction l with
  | nil => intro _ k; simp
  | cons x xs ih =>
    intro h k
    simp only [lastIdxOf] at h
    cases hrec : lastIdxOf c xs with
    | some j => rw [hrec] at h; cases h
    | none =>
      rw [hrec] at h
      by_cases hx : x = c
      · rw [if_pos hx] at h; cases h
      · cases k with
        | zero => simpa using hx
        | succ k => simpa using ih hrec k

theorem lastIdxOf_last (c : Char) : ∀ (l : List Char) (i : Nat), lastIdxOf c l = some i → ∀ j, i < j → l.get? j ≠ some c := by
  intro l
  induction l with
  | nil => intro i h; simp [lastIdxOf] at h
  | cons x xs ih =>
    intro i h j hij
    simp only [lastIdxOf] at h
    cases hrec : lastIdxOf c xs with
    | some k =>
      rw [hrec] at h
      cases h
      cases j with
      | zero => omega
      | succ j => simpa using ih k hrec j (by omega)
    | none =>
      rw [hrec] at h
      by_cases hx : x = c
      · rw [if_pos hx] at h
        cases h
        cases j with
        | zero => omega
        | succ j => simpa using lastIdxOf_none c xs hrec j
      · rw [if_neg hx] at h
        cases h

/- ------------------------------------------------------------------ -/
/- C5: doc-comment injection                                           -/
/- ------------------------------------------------------------------ -/

/-- C5: for every code fragment and cursor, _inject_docstring returns the
fragment unchanged when the cursor carries no raw comment (None, and also the
Python-falsy empty string); with a comment, append mode appends the raw
string literal as a trailing argument, and last_arg mode inserts it
immediately before the final closing parenthesis of the fragment (index i is
the last position holding a closing parenthesis). -/
theorem inject_docstring_spec (code cmt mode : String) (i : Nat)
    (hc : cmt ≠ "") (hi : lastIdxOf ')' code.data = some i) :
    _inject_docstring code none mode = code
    ∧ _inject_docstring code (some "") mode = code
    ∧ _inject_docstring code (some cmt) "append" = code ++ docLit cmt
    ∧ _inject_docstring code (some cmt) "last_arg"
        = String.mk (code.data.take i) ++ docLit cmt ++ String.mk (code.data.drop i)
    ∧ code.data.get? i = some ')'
    ∧ (∀ j, i < j → code.data.get? j ≠ some ')') := by
  have hnorm : pyNormIdx code.data.length (i : Int) = i := by
    unfold pyNormIdx
    rw [if_neg (by omega)]
    omega
  refine ⟨rfl, rfl, ?_, ?_, lastIdxOf_get ')' code.data i hi, lastIdxOf_last ')' code.data i hi⟩
  · simp [_inject_docstring, hc]
  · simp only [_inject_docstring, if_neg hc]
    simp only [show ¬ (("last_arg" : String) = "append") from by decide, if_false,
      show (("last_arg" : String) = "last_arg") from rfl, if_true]
    unfold pyRFind
    rw [hi]
    unfold pySliceTo pySliceFrom
    rw [hnorm]

/-- Witness for C5 at a concrete registration fragment with a doc comment. -/
theorem inject_docstring_spec_witness :
    (("doc" : String) ≠ "" ∧ lastIdxOf ')' ("m.def(\"f\", &f)" : String).data = some 13)
    ∧ _inject_docstring "m.def(\"f\", &f)" (some "doc") "last_arg"
        = String.mk (("m.def(\"f\", &f)" : String).data.take 13) ++ docLit "doc"
            ++ String.mk (("m.def(\"f\", &f)" : String).data.drop 13) :=
  ⟨⟨by decide, by decide⟩,
    (inject_docstring_spec "m.def(\"f\", &f)" "doc" "append" 13 (by decide) (by decide)).2.2.2.1⟩

/- ------------------------------------------------------------------ -/
/- C6: struct versus class stub prefix                                 -/
/- ------------------------------------------------------------------ -/

/-- C6: the stub prefix is extern template struct exactly when the literal
source line at the template definition's location contains the substring
struct, and extern template class otherwise; and the result depends on
nothing but that one source line (any file agreeing on that line yields the
same answer). -/
theorem get_template_struct_class_spec (lines lines2 : List String) (n : Int) (content : String)
    (h : pyIndex lines (n - 1) = some content)
    (hsame : pyIndex lines2 (n - 1) = pyIndex lines (n - 1)) :
    _get_template_struct_class lines n
      = some (if strIn "struct" content then "extern template struct" else "extern template class")
    ∧ (_get_template_struct_class lines n = some "extern template struct"
        ↔ strIn "struct" content = true)
    ∧ _get_template_struct_class lines2 n = _get_template_struct_class lines n := by
  have h1 : _get_template_struct_class lines n
      = some (if strIn "struct" content then "extern template struct" else "extern template class") := by
    unfold _get_template_struct_class
    rw [h]
  refine ⟨h1, ?_, ?_⟩
  · rw [h1]
    cases hs : strIn "struct" content with
    | true => simp [hs]
    | false => simp [hs]
  · unfold _get_template_struct_class
    rw [hsame]

/-- Witness for C6 at a one-line template definition using the struct
keyword. -/
theorem get_template_struct_class_witness :
    pyIndex ["template <class T> struct Box;"] ((1 : Int) - 1) = some "template <class T> struct Box;"
    ∧ _get_template_struct_class ["template <class T> struct Box;"] 1 = some "extern template struct" :=
  ⟨rfl,
    (get_template_struct_class_spec ["template <class T> struct Box;"]
      ["template <class T> struct Box;"] 1 "template <class T> struct Box;" rfl rfl).2.1.mpr
        (by decide)⟩

/- ------------------------------------------------------------------ -/
/- C2: candidate examination aborts at a non-specialization candidate  -/
/- ------------------------------------------------------------------ -/

/-- C2 (code bug evidence): for a template-reference cursor whose parent is a
function declaration with return type void and one parameter of the in-input
specialization Box of int, handle_implicit records nothing: the for loop's
early return on the first candidate (the non-specialization return type)
abandons the parameter candidates, although the same specialization as a
parameter-declaration parent's only candidate is recorded. -/
theorem handle_implicit_early_return :
    handle_implicit emptyScan parentC2 = emptyScan
    ∧ dictLookup "Box<int>" (handle_implicit emptyScan parentC2).implicit_instantiation = none
    ∧ (handle_implicit emptyScan parmParentC2).implicit_instantiation
        = [("Box<int>", "extern template struct")] :=
  ⟨rfl, rfl, rfl⟩

/- ------------------------------------------------------------------ -/
/- C9: exactly one unconditional re-parse per construction             -/
/- ------------------------------------------------------------------ -/

/-- C9: every Entity Tree construction (_map_from_gu) appends exactly one
reload_tu call to the Generation Unit, made unconditionally at the end of the
normalization pass, whose appended source fragment is the joined stub lines
of the implicit map; when the implicit map is empty the fragment is the empty
string, and the re-parse still happens. -/
theorem map_from_gu_single_reload (gu : GU) (t : NCursor) (bindable : CursorKind → Bool)
    (fuel : Nat) (walkT : WCur) :
    (_map_from_gu gu t bindable fuel walkT).1.reloadArgs
      = gu.reloadArgs ++ [init_code (scanAst t).implicit_instantiation]
    ∧ (_map_from_gu gu t bindable fuel walkT).1.reloadArgs.length = gu.reloadArgs.length + 1
    ∧ (_map_from_gu { reloadArgs := [] } t bindable fuel walkT).1.reloadArgs.length = 1
    ∧ init_code [] = "" := by
  have h1 : (_map_from_gu gu t bindable fuel walkT).1.reloadArgs
      = gu.reloadArgs ++ [init_code (scanAst t).implicit_instantiation] := rfl
  refine ⟨h1, ?_, rfl, rfl⟩
  rw [h1, List.length_append]
  rfl

/- ------------------------------------------------------------------ -/
/- C1: namespace merge and the LIFO worklist                           -/
/- ------------------------------------------------------------------ -/

/-- C1 (code bug evidence): for the flat reopening (the spec's own example)
the walk builds one ns entity whose children are the union of both
reopenings' children; but for two sibling reopenings of namespace a each
containing a reopening of an inner namespace b with content, the walk aborts
with an AssertionError: worklist.pop() is LIFO (not the BFS the code's
comment assumes), so the second reopening's subtree is fully built before the
first reopening descends, and the namespace-merge assertion
len(children) == 0 in _add_child fails for the inner b. -/
theorem walk_asserts_on_nested_reopening :
    ((doneRoot (runWalk bindAll 8 (initWalk c1flatTu))).bind (fun r => getForest r ["ns"]))
      = some [("g()", EntNode.mk c1dg []), ("f()", EntNode.mk c1df [])]
    ∧ runWalk bindAll 8 (initWalk c1tu) = .assertFail := by
  exact ⟨rfl, rfl⟩

/- ------------------------------------------------------------------ -/
/- C10: a None factory result installs nothing                         -/
/- ------------------------------------------------------------------ -/

/-- C10: when the entity factory produces no Entity, installing the result is
a no-op: _add_child with a None child returns None leaving the parent's
children unchanged, and the visitor leaves the whole walk state unchanged, in
particular queuing nothing for descent. -/
theorem add_child_none_noop (bindable : CursorKind → Bool) (st : WalkState) (p : List String) (c : WCur)
    (h1 : bindable c.data.kind = false) (h2 : c.data.inInputs = true)
    (h3 : c.data.kind ≠ CursorKind.CXCursor_LinkageSpec) :
    (∀ root q, _add_child root q none = (root, AddRes.noChild))
    ∧ create_entity bindable c.data = none
    ∧ visitChild bindable st p c = some st := by
  have hce : create_entity bindable c.data = none := by
    unfold create_entity
    rw [h1]
    rfl
  refine ⟨fun root q => rfl, hce, ?_⟩
  unfold visitChild
  rw [h2, if_neg (by decide : ¬ (true = false)), if_neg h3, hce]
  rfl

/-- Witness for C10: a declined cursor kind leaves a concrete state intact. -/
theorem add_child_none_noop_witness :
    ((fun _ : CursorKind => false) c10c.data.kind = false ∧ c10c.data.inInputs = true)
    ∧ visitChild (fun _ => false) emptyWalkState [] c10c = some emptyWalkState :=
  ⟨⟨rfl, rfl⟩,
    (add_child_none_noop (fun _ => false) emptyWalkState [] c10c rfl rfl (by decide)).2.2⟩

/- ------------------------------------------------------------------ -/
/- C4: redeclaration dedup                                             -/
/- ------------------------------------------------------------------ -/

/-- _add_child on a non-namespace cursor whose scope key already exists under
the destination parent: warning data returned, tree untouched. -/
theorem add_child_dup (root : Forest) (p : List String) (d : WData) (f0 : Forest) (ex : EntNode)
    (hget : getForest root p = some f0)
    (hex : assocFind f0 (displayname d) = some ex)
    (hns : d.kind ≠ CursorKind.CXCursor_Namespace) :
    _add_child root p (some (.mk d [])) = (root, .dup d.location ex.cursor.location) := by
  simp only [_add_child, hget]
  rw [show key_in_scope (EntNode.mk d []) = displayname d from rfl]
  simp only [hex]
  rw [if_neg (show ¬ ((EntNode.mk d []).cursor.kind = CursorKind.CXCursor_Namespace) from hns)]
  rfl

/-- C4: when a candidate Entity's scope key already exists under the
destination parent and the new cursor is not a namespace, the new declaration
is discarded: a warning naming the new and the previously installed source
locations is appended, the tree (hence the parent's children, keeping the
first Entity) is unchanged, and the cursor is not queued for descent —
the state changes in nothing but the warning log. -/
theorem visit_redeclaration_warns (bindable : CursorKind → Bool) (st : WalkState) (p : List String)
    (c : WCur) (f0 : Forest) (ex : EntNode)
    (hin : c.data.inInputs = true)
    (hnl : c.data.kind ≠ CursorKind.CXCursor_LinkageSpec)
    (hns : c.data.kind ≠ CursorKind.CXCursor_Namespace)
    (hb : bindable c.data.kind = true)
    (hget : getForest st.root p = some f0)
    (hex : assocFind f0 (displayname c.data) = some ex) :
    visitChild bindable st p c
      = some { st with warnings := st.warnings ++ [(c.data.location, ex.cursor.location)] } := by
  have hce : create_entity bindable c.data = some (.mk c.data []) := by
    unfold create_entity
    rw [hb]
    rfl
  unfold visitChild
  rw [hin, if_neg (by decide : ¬ (true = false)), if_neg hnl, hce,
    add_child_dup st.root p c.data f0 ex hget hex hns]

/-- Witness for C4: a second class A at a new location is discarded with a
warning naming both locations. -/
theorem visit_redeclaration_warns_witness :
    (getForest stC4.root [] = some stC4.root
      ∧ assocFind stC4.root (displayname dA2) = some (.mk dA1 []))
    ∧ visitChild bindAll stC4 [] (.node dA2 [])
        = some { stC4 with warnings := stC4.warnings ++ [("input.h:2", "input.h:1")] } :=
  ⟨⟨rfl, rfl⟩,
    visit_redeclaration_warns bindAll stC4 [] (.node dA2 []) stC4.root (.mk dA1 [])
      rfl (by decide) (by decide) rfl rfl rfl⟩

/- ------------------------------------------------------------------ -/
/- C8: overloads get distinct scope keys and distinct Entities         -/
/- ------------------------------------------------------------------ -/

theorem assocFind_append_none (a b : Forest) (k : String) (h : assocFind a k = none) :
    assocFind (a ++ b) k = assocFind b k := by
  induction a with
  | nil => rfl
  | cons e rest ih =>
    simp only [assocFind, List.cons_append] at h ⊢
    by_cases he : e.1 = k
    · rw [if_pos he] at h
      cases h
    · rw [if_neg he] at h ⊢
      exact ih h

theorem assocFind_insertAt_cons (f : Forest) (k0 k : String) (p : List String) (nd : EntNode) :
    assocFind (insertAt f (k0 :: p) k nd) k0
      = (assocFind f k0).map (fun n => EntNode.mk n.cursor (insertAt n.children p k nd)) := by
  induction f with
  | nil => rfl
  | cons e rest ih =>
    simp only [insertAt] at ih ⊢
    simp only [List.map_cons, assocFind]
    by_cases he : e.1 = k0
    · simp [he]
    · simp only [he, if_false, assocFind, if_neg he]
      exact ih

theorem getForest_insertAt : ∀ (p : List String) (f f0 : Forest) (k : String) (nd : EntNode),
    getForest f p = some f0 → getForest (insertAt f p k nd) p = some (f0 ++ [(k, nd)]) := by
  intro p
  induction p with
  | nil =>
    intro f f0 k nd h
    simp only [getForest] at h ⊢
    cases h
    rfl
  | cons k0 p ih =>
    intro f f0 k nd h
    simp only [getForest] at h ⊢
    cases haf : assocFind f k0 with
    | none =>
      simp only [haf] at h
      exact Option.noConfusion h
    | some n =>
      simp only [haf] at h
      rw [assocFind_insertAt_cons, haf]
      simp only [Option.map_some']
      exact ih n.children f0 k nd h

theorem affix_sig_inj (a s1 s2 : String)
    (h : a ++ "(" ++ s1 ++ ")" = a ++ "(" ++ s2 ++ ")") : s1 = s2 := by
  have hd : a.data ++ ("(".data ++ (s1.data ++ ")".data))
      = a.data ++ ("(".data ++ (s2.data ++ ")".data)) := by
    simpa [String.data_append, List.append_assoc] using congrArg String.data h
  have h1 : s1.data ++ ")".data = s2.data ++ ")".data :=
    List.append_cancel_left (List.append_cancel_left hd)
  exact String.ext (List.append_cancel_right h1)

theorem displayname_inj_funcs (d1 d2 : WData)
    (h1 : d1.kind = CursorKind.CXCursor_FunctionDecl) (h2 : d2.kind = CursorKind.CXCursor_FunctionDecl)
    (hs : d1.spelling = d2.spelling) (hsig : d1.sig ≠ d2.sig) :
    displayname d1 ≠ displayname d2 := by
  unfold displayname
  rw [if_pos (Or.inl h1), if_pos (Or.inl h2), hs]
  intro heq
  exact hsig (affix_sig_inj d2.spelling d1.sig d2.sig heq)

/-- _add_child on a fresh scope key installs the entity at the end of the
destination children mapping and reports its path. -/
theorem add_child_fresh (root : Forest) (p : List String) (d : WData) (f0 : Forest)
    (hget : getForest root p = some f0)
    (hf : assocFind f0 (displayname d) = none) :
    _add_child root p (some (.mk d []))
      = (insertAt root p (displayname d) (.mk d []), .install (p ++ [displayname d])) := by
  simp only [_add_child, hget]
  rw [show key_in_scope (EntNode.mk d []) = displayname d from rfl]
  simp only [hf]

/-- The visitor on an in-input, bindable, fresh-key cursor installs its
entity and queues it for descent. -/
theorem visit_install (bindable : CursorKind → Bool) (st : WalkState) (p : List String)
    (d : WData) (ks : List WCur) (f0 : Forest)
    (hin : d.inInputs = true) (hnl : d.kind ≠ CursorKind.CXCursor_LinkageSpec)
    (hb : bindable d.kind = true)
    (hget : getForest st.root p = some f0) (hf : assocFind f0 (displayname d) = none) :
    visitChild bindable st p (.node d ks)
      = some { st with
          root := insertAt st.root p (displayname d) (.mk d []),
          worklist := st.worklist ++ [(.node d ks, p ++ [displayname d])],
          pushed := st.pushed ++ [.node d ks] } := by
  have hce : create_entity bindable d = some (.mk d []) := by
    unfold create_entity
    rw [hb]
    rfl
  unfold visitChild
  simp only [WCur.data]
  rw [hin, if_neg (by decide : ¬ (true = false)), if_neg hnl, hce,
    add_child_fresh st.root p d f0 hget hf]

/-- C8: for two sibling function declaration cursors with the same name but
different signatures, the scope keys are distinct (the displayname key
includes the full signature, modelled per the spec's data model), so visiting
both installs two distinct Entities under the enclosing scope, each wrapping
its own cursor. -/
theorem overloads_get_distinct_entities (bindable : CursorKind → Bool) (st : WalkState)
    (p : List String) (d1 d2 : WData) (k1 k2 : List WCur) (f0 : Forest)
    (h1 : d1.kind = CursorKind.CXCursor_FunctionDecl) (h2 : d2.kind = CursorKind.CXCursor_FunctionDecl)
    (hs : d1.spelling = d2.spelling) (hsig : d1.sig ≠ d2.sig)
    (hin1 : d1.inInputs = true) (hin2 : d2.inInputs = true)
    (hb : bindable CursorKind.CXCursor_FunctionDecl = true)
    (hget : getForest st.root p = some f0)
    (hf1 : assocFind f0 (displayname d1) = none)
    (hf2 : assocFind f0 (displayname d2) = none) :
    displayname d1 ≠ displayname d2
    ∧ (((visitChild bindable st p (.node d1 k1)).bind
          (fun st1 => visitChild bindable st1 p (.node d2 k2))).map
        (fun st2 => getForest st2.root p))
      = some (some (f0 ++ [(displayname d1, .mk d1 []), (displayname d2, .mk d2 [])])) := by
  have hne : displayname d1 ≠ displayname d2 := displayname_inj_funcs d1 d2 h1 h2 hs hsig
  have hv1 := visit_install bindable st p d1 k1 f0 hin1
    (by rw [h1]; decide) (by rw [h1]; exact hb) hget hf1
  have hroot1 : getForest (insertAt st.root p (displayname d1) (EntNode.mk d1 [])) p
      = some (f0 ++ [(displayname d1, EntNode.mk d1 [])]) :=
    getForest_insertAt p st.root f0 (displayname d1) (EntNode.mk d1 []) hget
  have hfind2 : assocFind (f0 ++ [(displayname d1, EntNode.mk d1 [])]) (displayname d2) = none := by
    rw [assocFind_append_none f0 _ _ hf2]
    simp only [assocFind]
    rw [if_neg hne]
  have hv2 := visit_install bindable
    { st with
      root := insertAt st.root p (displayname d1) (EntNode.mk d1 []),
      worklist := st.worklist ++ [(.node d1 k1, p ++ [displayname d1])],
      pushed := st.pushed ++ [.node d1 k1] }
    p d2 k2 (f0 ++ [(displayname d1, EntNode.mk d1 [])]) hin2
    (by rw [h2]; decide) (by rw [h2]; exact hb) hroot1 hfind2
  refine ⟨hne, ?_⟩
  rw [hv1, Option.some_bind, hv2, Option.map_some']
  rw [getForest_insertAt p _ _ (displayname d2) (EntNode.mk d2 []) hroot1]
  simp [List.append_assoc]

/-- Witness for C8 at two overloads f(int) and f(double) under an empty
scope. -/
theorem overloads_get_distinct_entities_witness :
    (d8f1.spelling = d8f2.spelling ∧ d8f1.sig ≠ d8f2.sig
      ∧ getForest emptyWalkState.root [] = some []
      ∧ assocFind [] (displayname d8f1) = none)
    ∧ displayname d8f1 ≠ displayname d8f2
    ∧ (((visitChild bindAll emptyWalkState [] (.node d8f1 [])).bind
          (fun st1 => visitChild bindAll st1 [] (.node d8f2 []))).map
        (fun st2 => getForest st2.root []))
      = some (some [(displayname d8f1, .mk d8f1 []), (displayname d8f2, .mk d8f2 [])]) := by
  have h := overloads_get_distinct_entities bindAll emptyWalkState [] d8f1 d8f2 [] [] []
    rfl rfl rfl (by decide) rfl rfl rfl rfl rfl rfl
  exact ⟨⟨rfl, by decide, rfl, rfl⟩, h.1, h.2⟩

/- ------------------------------------------------------------------ -/
/- C7: input filtering invariant of the walk                           -/
/- ------------------------------------------------------------------ -/

theorem forestOk_append (a b : Forest) : forestOk (a ++ b) = (forestOk a && forestOk b) := by
  induction a with
  | nil => simp [forestOk]
  | cons e rest ih =>
    simp [forestOk, ih, Bool.and_assoc]

theorem forestOk_insertAt : ∀ (p : List String) (f : Forest) (k : String) (nd : EntNode),
    forestOk f = true → nodeOk nd = true → forestOk (insertAt f p k nd) = true := by
  intro p
  induction p with
  | nil =>
    intro f k nd hf hnd
    simp only [insertAt, forestOk_append]
    simp [hf, hnd, forestOk, nodeOk]
  | cons k0 p ih =>
    intro f k nd hf hnd
    simp only [insertAt]
    induction f with
    | nil => rfl
    | cons e rest ihf =>
      simp only [forestOk, Bool.and_eq_true] at hf
      simp only [List.map_cons, forestOk, Bool.and_eq_true]
      refine ⟨?_, ?_⟩
      · by_cases he : e.1 = k0
        · rw [if_pos he]
          cases hn : e.2 with
          | mk c ch =>
            have hok : c.inInputs = true ∧ forestOk ch = true := by
              have := hf.1
              rw [hn] at this
              simpa [nodeOk, Bool.and_eq_true] using this
            simp only [EntNode.cursor, EntNode.children, nodeOk, Bool.and_eq_true]
            exact ⟨hok.1, ih ch k nd hok.2 hnd⟩
        · rw [if_neg he]
          exact hf.1
      · exact ihf hf.2

theorem add_child_forestOk (root : Forest) (p : List String) (child : Option EntNode)
    (root1 : Forest) (res : AddRes)
    (h : _add_child root p child = (root1, res))
    (hroot : forestOk root = true)
    (hch : ∀ ch, child = some ch → nodeOk ch = true) :
    forestOk root1 = true := by
  cases child with
  | none =>
    simp only [_add_child] at h
    cases h
    exact hroot
  | some ch =>
    simp only [_add_child] at h
    cases hget : getForest root p with
    | none =>
      simp only [hget] at h
      cases h
      exact hroot
    | some pc =>
      simp only [hget] at h
      cases hfind : assocFind pc (key_in_scope ch) with
      | some ex =>
        simp only [hfind] at h
        by_cases hns : ch.cursor.kind = CursorKind.CXCursor_Namespace
        · rw [if_pos hns] at h
          by_cases hlen : ex.children.length = 0
          · rw [if_pos hlen] at h
            cases h
            exact hroot
          · rw [if_neg hlen] at h
            cases h
            exact hroot
        · rw [if_neg hns] at h
          cases h
          exact hroot
      | none =>
        simp only [hfind] at h
        cases h
        exact forestOk_insertAt p root (key_in_scope ch) ch hroot (hch ch rfl)

theorem visitChild_inv (bindable : CursorKind → Bool) (st st' : WalkState) (p : List String) (c : WCur)
    (hinv : WalkInv st) (h : visitChild bindable st p c = some st') : WalkInv st' := by
  unfold visitChild at h
  by_cases hin : c.data.inInputs = false
  · rw [if_pos hin] at h
    cases h
    exact hinv
  · rw [if_neg hin] at h
    have hintrue : c.data.inInputs = true := by
      cases hb : c.data.inInputs
      · exact absurd hb hin
      · rfl
    have hpush : ∀ x ∈ st.pushed ++ [c], (WCur.data x).inInputs = true := by
      intro x hx
      rcases List.mem_append.mp hx with hx1 | hx2
      · exact hinv.2 x hx1
      · rw [List.mem_singleton.mp hx2]
        exact hintrue
    by_cases hlk : c.data.kind = CursorKind.CXCursor_LinkageSpec
    · rw [if_pos hlk] at h
      cases h
      exact ⟨hinv.1, hpush⟩
    · rw [if_neg hlk] at h
      have hch : ∀ ch, create_entity bindable c.data = some ch → nodeOk ch = true := by
        intro ch hc
        unfold create_entity at hc
        by_cases hb : bindable c.data.kind = true
        · rw [if_pos hb] at hc
          cases hc
          simp [nodeOk, forestOk, hintrue]
        · rw [if_neg hb] at hc
          cases hc
      rcases hsplit : _add_child st.root p (create_entity bindable c.data) with ⟨root1, res⟩
      have hok1 : forestOk root1 = true :=
        add_child_forestOk st.root p (create_entity bindable c.data) root1 res hsplit hinv.1 hch
      rw [hsplit] at h
      cases res with
      | install q =>
        cases h
        exact ⟨hok1, hpush⟩
      | noChild =>
        cases h
        exact ⟨hok1, hinv.2⟩
      | dup nl pl =>
        cases h
        exact ⟨hok1, hinv.2⟩
      | assertFail =>
        cases h

theorem visitAll_inv (bindable : CursorKind → Bool) (p : List String) :
    ∀ (cs : List WCur) (st st' : WalkState), WalkInv st →
      visitAll bindable st p cs = some st' → WalkInv st' := by
  intro cs
  induction cs with
  | nil =>
    intro st st' hinv h
    simp only [visitAll] at h
    cases h
    exact hinv
  | cons c rest ih =>
    intro st st' hinv h
    simp only [visitAll] at h
    cases hv : visitChild bindable st p c with
    | none =>
      rw [hv] at h
      cases h
    | some st1 =>
      rw [hv] at h
      exact ih st1 st' (visitChild_inv bindable st st1 p c hinv hv) h

theorem runWalk_inv (bindable : CursorKind → Bool) :
    ∀ (fuel : Nat) (st st' : WalkState), WalkInv st →
      runWalk bindable fuel st = .done st' → WalkInv st' := by
  intro fuel
  induction fuel with
  | zero =>
    intro st st' hinv h
    unfold runWalk at h
    cases hw : st.worklist with
    | nil =>
      rw [hw] at h
      cases h
      exact hinv
    | cons a l =>
      rw [hw] at h
      cases h
  | succ n ih =>
    intro st st' hinv h
    unfold runWalk at h
    cases hp : popLast st.worklist with
    | none =>
      rw [hp] at h
      cases h
      exact hinv
    | some pr =>
      rcases pr with ⟨rest, c, path⟩
      simp only [hp] at h
      cases hv : visitAll bindable { st with worklist := rest } path c.kids with
      | none =>
        rw [hv] at h
        cases h
      | some st1 =>
        rw [hv] at h
        have hinv1 : WalkInv { st with worklist := rest } := ⟨hinv.1, hinv.2⟩
        exact ih st1 st' (visitAll_inv bindable path c.kids _ st1 hinv1 hv) h

/-- C7: every Entity installed anywhere in a finished Entity Tree wraps a
cursor satisfying the inclusion predicate, and every cursor the visitor ever
queued for descent satisfies it (so the children of an excluded cursor are
never visited); moreover the visitor leaves the state untouched on an
excluded child cursor, creating no Entity. -/
theorem walk_input_filtering (bindable : CursorKind → Bool) (fuel : Nat) (tu : WCur) :
    resultOk (runWalk bindable fuel (initWalk tu)) = true
    ∧ (∀ (st : WalkState) (p : List String) (c : WCur),
        (WCur.data c).inInputs = false → visitChild bindable st p c = some st) := by
  constructor
  · cases hr : runWalk bindable fuel (initWalk tu) with
    | outOfFuel => rfl
    | assertFail => rfl
    | done st =>
      have hinv0 : WalkInv (initWalk tu) := by
        constructor
        · rfl
        · intro x hx
          cases hx
      have hinv := runWalk_inv bindable fuel (initWalk tu) st hinv0 hr
      simp only [resultOk, Bool.and_eq_true]
      refine ⟨hinv.1, ?_⟩
      rw [List.all_eq_true]
      intro x hx
      exact hinv.2 x hx
  · intro st p c hc
    unfold visitChild
    rw [if_pos hc]

/-- Witness for C7: a namespace holding one excluded and one included
declaration; the finished tree passes the inclusion check and the excluded
cursor is a visitor no-op. -/
theorem walk_input_filtering_witness :
    resultOk (runWalk bindAll 6 (initWalk c7tu)) = true
    ∧ visitChild bindAll emptyWalkState [] (.node d7out []) = some emptyWalkState :=
  ⟨(walk_input_filtering bindAll 6 c7tu).1,
    (walk_input_filtering bindAll 6 c7tu).2 emptyWalkState [] (.node d7out []) rfl⟩

/- ------------------------------------------------------------------ -/
/- C3: dictionary and set lemmas                                       -/
/- ------------------------------------------------------------------ -/

theorem dictLookup_del_self (k : String) (d : List (String × String)) :
    dictLookup k (dictDel k d) = none := by
  induction d with
  | nil => rfl
  | cons e rest ih =>
    by_cases he : e.1 = k
    · simpa [dictDel, List.filter_cons, he] using ih
    · simpa [dictDel, List.filter_cons, he, dictLookup] using ih

theorem dictDel_cons_drop (k : String) (e : String × String) (rest : List (String × String))
    (he : e.1 = k) : dictDel k (e :: rest) = dictDel k rest := by
  simp [dictDel, List.filter_cons, he]

theorem dictDel_cons_keep (k : String) (e : String × String) (rest : List (String × String))
    (he : ¬ e.1 = k) : dictDel k (e :: rest) = e :: dictDel k rest := by
  simp [dictDel, List.filter_cons, he]

theorem dictLookup_del_ne (k k' : String) (h : k' ≠ k) (d : List (String × String)) :
    dictLookup k' (dictDel k d) = dictLookup k' d := by
  induction d with
  | nil => rfl
  | cons e rest ih =>
    by_cases he : e.1 = k
    · have h2 : e.1 ≠ k' := by
        rw [he]
        exact fun hc => h hc.symm
      rw [dictDel_cons_drop k e rest he, ih]
      simp only [dictLookup, if_neg h2]
    · rw [dictDel_cons_keep k e rest he]
      simp only [dictLookup]
      by_cases he2 : e.1 = k'
      · rw [if_pos he2, if_pos he2]
      · rw [if_neg he2, if_neg he2, ih]

theorem dictDel_of_lookup_none (k : String) (d : List (String × String))
    (h : dictLookup k d = none) : dictDel k d = d := by
  induction d with
  | nil => rfl
  | cons e rest ih =>
    simp only [dictLookup] at h
    by_cases he : e.1 = k
    · rw [if_pos he] at h
      cases h
    · rw [if_neg he] at h
      simp [dictDel, List.filter_cons, he] at ih ⊢
      exact ih h

theorem dictLookup_eq_none_iff (k : String) (d : List (String × String)) :
    dictLookup k d = none ↔ k ∉ dictKeys d := by
  induction d with
  | nil => simp [dictLookup, dictKeys]
  | cons e rest ih =>
    simp only [dictLookup, dictKeys, List.map_cons, List.mem_cons]
    by_cases he : e.1 = k
    · simp [he]
    · simp only [if_neg he]
      rw [ih]
      simp only [dictKeys]
      constructor
      · intro hn
        rintro (h1 | h2)
        · exact he h1.symm
        · exact hn h2
      · intro hn
        exact fun h2 => hn (Or.inr h2)

theorem dictLookup_mem (k v : String) (d : List (String × String))
    (h : dictLookup k d = some v) : (k, v) ∈ d := by
  induction d with
  | nil => cases h
  | cons e rest ih =>
    simp only [dictLookup] at h
    by_cases he : e.1 = k
    · rw [if_pos he] at h
      cases h
      have h2 : (k, e.2) = e := by
        rw [← he]
      rw [h2]
      exact List.mem_cons_self e rest
    · rw [if_neg he] at h
      exact List.mem_cons_of_mem e (ih h)

theorem map_set_id_of_not_mem (k v : String) (d : List (String × String))
    (h : k ∉ dictKeys d) :
    d.map (fun e => if e.1 = k then (k, v) else e) = d := by
  induction d with
  | nil => rfl
  | cons e rest ih =>
    simp only [dictKeys, List.map_cons, List.mem_cons] at h
    push_neg at h
    rw [List.map_cons, if_neg (fun hc => h.1 hc.symm), ih (by simpa [dictKeys] using h.2)]

theorem map_set_id (k v : String) (d : List (String × String))
    (hU : (dictKeys d).Nodup) (h : dictLookup k d = some v) :
    d.map (fun e => if e.1 = k then (k, v) else e) = d := by
  induction d with
  | nil => cases h
  | cons e rest ih =>
    simp only [dictKeys, List.map_cons, List.nodup_cons] at hU
    simp only [dictLookup] at h
    by_cases he : e.1 = k
    · rw [if_pos he] at h
      cases h
      rw [List.map_cons, if_pos he]
      rw [map_set_id_of_not_mem k e.2 rest (by rw [← he]; simpa [dictKeys] using hU.1)]
      have h2 : (k, e.2) = e := by
        rw [← he]
      rw [h2]
    · rw [if_neg he] at h
      rw [List.map_cons, if_neg he, ih hU.2 h]

theorem dictSet_of_lookup_eq (k v : String) (d : List (String × String))
    (hU : (dictKeys d).Nodup) (h : dictLookup k d = some v) :
    dictSet k v d = d := by
  unfold dictSet
  rw [h]
  exact map_set_id k v d hU h

theorem dictLookup_map_set_ne (k k' v : String) (h : k' ≠ k) (d : List (String × String)) :
    dictLookup k' (d.map (fun e => if e.1 = k then (k, v) else e)) = dictLookup k' d := by
  induction d with
  | nil => rfl
  | cons e rest ih =>
    rw [List.map_cons]
    by_cases he : e.1 = k
    · have h2 : e.1 ≠ k' := by
        rw [he]
        exact fun hc => h hc.symm
      rw [if_pos he]
      simp only [dictLookup]
      rw [if_neg (show ¬ ((k, v).1 = k') from fun hc => h hc.symm), if_neg h2, ih]
    · rw [if_neg he]
      simp only [dictLookup]
      by_cases he2 : e.1 = k'
      · rw [if_pos he2, if_pos he2]
      · rw [if_neg he2, if_neg he2, ih]

theorem dictLookup_append_of_none (k : String) (a b : List (String × String))
    (h : dictLookup k a = none) : dictLookup k (a ++ b) = dictLookup k b := by
  induction a with
  | nil => rfl
  | cons e rest ih =>
    simp only [dictLookup] at h
    by_cases he : e.1 = k
    · rw [if_pos he] at h
      cases h
    · rw [if_neg he] at h
      simp only [List.cons_append, dictLookup, if_neg he]
      exact ih h

theorem dictLookup_append_single_ne (k k' v : String) (h : k' ≠ k) (d : List (String × String)) :
    dictLookup k' (d ++ [(k, v)]) = dictLookup k' d := by
  induction d with
  | nil =>
    simp only [List.nil_append, dictLookup]
    rw [if_neg (show ¬ ((k, v).1 = k') from fun hc => h hc.symm)]
  | cons e rest ih =>
    simp only [List.cons_append, dictLookup]
    by_cases he2 : e.1 = k'
    · rw [if_pos he2, if_pos he2]
    · rw [if_neg he2, if_neg he2]
      exact ih

theorem dictLookup_set_ne (k k' v : String) (h : k' ≠ k) (d : List (String × String)) :
    dictLookup k' (dictSet k v d) = dictLookup k' d := by
  unfold dictSet
  by_cases hs : (dictLookup k d).isSome
  · rw [if_pos hs]
    exact dictLookup_map_set_ne k k' v h d
  · rw [if_neg hs]
    exact dictLookup_append_single_ne k k' v h d

theorem dictKeys_map_set (k v : String) (d : List (String × String)) :
    dictKeys (d.map (fun e => if e.1 = k then (k, v) else e)) = dictKeys d := by
  induction d with
  | nil => rfl
  | cons e rest ih =>
    by_cases he : e.1 = k
    · simp only [dictKeys, List.map_cons, if_pos he] at ih ⊢
      rw [he, ih]
    · simp only [dictKeys, List.map_cons, if_neg he] at ih ⊢
      rw [ih]

theorem dictKeys_set (k v : String) (d : List (String × String)) :
    dictKeys (dictSet k v d)
      = if (dictLookup k d).isSome then dictKeys d else dictKeys d ++ [k] := by
  unfold dictSet
  by_cases hs : (dictLookup k d).isSome
  · rw [if_pos hs, if_pos hs]
    exact dictKeys_map_set k v d
  · rw [if_neg hs, if_neg hs]
    simp [dictKeys]

theorem mem_keys_dictSet_self (k v : String) (d : List (String × String)) :
    k ∈ dictKeys (dictSet k v d) := by
  rw [dictKeys_set]
  by_cases hs : (dictLookup k d).isSome
  · rw [if_pos hs]
    rcases Option.isSome_iff_exists.mp hs with ⟨v0, hv0⟩
    have := dictLookup_mem k v0 d hv0
    exact List.mem_map_of_mem Prod.fst this
  · rw [if_neg hs]
    exact List.mem_append.mpr (Or.inr (List.mem_singleton.mpr rfl))

theorem mem_keys_dictSet_mono (k k' v : String) (d : List (String × String))
    (h : k' ∈ dictKeys d) : k' ∈ dictKeys (dictSet k v d) := by
  rw [dictKeys_set]
  by_cases hs : (dictLookup k d).isSome
  · rw [if_pos hs]
    exact h
  · rw [if_neg hs]
    exact List.mem_append.mpr (Or.inl h)

theorem nodup_keys_dictSet (k v : String) (d : List (String × String))
    (hU : (dictKeys d).Nodup) : (dictKeys (dictSet k v d)).Nodup := by
  rw [dictKeys_set]
  by_cases hs : (dictLookup k d).isSome
  · rw [if_pos hs]
    exact hU
  · rw [if_neg hs]
    have hnm : k ∉ dictKeys d := by
      rw [← dictLookup_eq_none_iff]
      exact Option.not_isSome_iff_eq_none.mp hs
    simp [List.nodup_append, hU, hnm]

theorem nodup_keys_dictDel (k : String) (d : List (String × String))
    (hU : (dictKeys d).Nodup) : (dictKeys (dictDel k d)).Nodup :=
  List.Nodup.sublist (List.Sublist.map Prod.fst (List.filter_sublist d)) hU

theorem mem_dictSet (e : String × String) (k v : String) (d : List (String × String))
    (h : e ∈ dictSet k v d) : e = (k, v) ∨ e ∈ d := by
  unfold dictSet at h
  by_cases hs : (dictLookup k d).isSome
  · rw [if_pos hs] at h
    rcases List.mem_map.mp h with ⟨x, hx, hfx⟩
    by_cases hxk : x.1 = k
    · rw [if_pos hxk] at hfx
      exact Or.inl hfx.symm
    · rw [if_neg hxk] at hfx
      exact Or.inr (hfx ▸ hx)
  · rw [if_neg hs] at h
    rcases List.mem_append.mp h with h1 | h2
    · exact Or.inr h1
    · exact Or.inl (List.mem_singleton.mp h2)

theorem mem_dictDel (e : String × String) (k : String) (d : List (String × String))
    (h : e ∈ dictDel k d) : e ∈ d :=
  List.mem_of_mem_filter h

theorem mem_setInsert (m n : String) (s : List String) :
    m ∈ setInsert n s ↔ m = n ∨ m ∈ s := by
  unfold setInsert
  by_cases hn : n ∈ s
  · rw [if_pos hn]
    constructor
    · exact Or.inr
    · rintro (h1 | h2)
      · rw [h1]
        exact hn
      · exact h2
  · rw [if_neg hn]
    rw [List.mem_append, List.mem_singleton]
    exact Or.comm

theorem setInsert_of_mem (n : String) (s : List String) (h : n ∈ s) :
    setInsert n s = s := if_pos h

theorem mem_setInsert_self (n : String) (s : List String) : n ∈ setInsert n s :=
  (mem_setInsert n n s).mpr (Or.inl rfl)

theorem mem_setInsert_mono (m n : String) (s : List String) (h : m ∈ s) :
    m ∈ setInsert n s :=
  (mem_setInsert m n s).mpr (Or.inr h)

/- ------------------------------------------------------------------ -/
/- C3: scan state lemmas                                               -/
/- ------------------------------------------------------------------ -/

theorem mem_keys_dictDel (k m : String) (d : List (String × String))
    (h1 : k ∈ dictKeys d) (h2 : k ≠ m) : k ∈ dictKeys (dictDel m d) := by
  by_contra hc
  have hn : dictLookup k (dictDel m d) = none := (dictLookup_eq_none_iff _ _).mpr hc
  rw [dictLookup_del_ne m k h2 d] at hn
  exact (dictLookup_eq_none_iff k d).mp hn h1

theorem instLoop_explicit (cands : List TyInfo) : ∀ st : ScanState,
    (instLoop st cands).explicit_instantiation = st.explicit_instantiation := by
  induction cands with
  | nil =>
    intro st
    rfl
  | cons c rest ih =>
    intro st
    simp only [instLoop]
    by_cases hc : c.isConcreteSpec = false
    · rw [if_pos hc]
    · rw [if_neg hc]
      by_cases hcond : c.defInInputs = true ∧ c.canonName ∉ st.explicit_instantiation
      · rw [if_pos hcond]
        exact ih _
      · rw [if_neg hcond]
        exact ih st

theorem stepEv_explicit_mono (st : ScanState) (e : ScanEvent) (n : String)
    (h : n ∈ st.explicit_instantiation) : n ∈ (stepEv st e).explicit_instantiation := by
  cases e with
  | explicitEv m =>
    simp only [stepEv, handle_explicit]
    exact mem_setInsert_mono n m _ h
  | implicitEv p =>
    simp only [stepEv, handle_implicit]
    rw [instLoop_explicit]
    exact h

theorem foldl_explicit_mono (l : List ScanEvent) : ∀ (st : ScanState) (n : String),
    n ∈ st.explicit_instantiation → n ∈ (List.foldl stepEv st l).explicit_instantiation := by
  induction l with
  | nil =>
    intro st n h
    exact h
  | cons e rest ih =>
    intro st n h
    exact ih _ n (stepEv_explicit_mono st e n h)

theorem foldl_explicit_closure (l : List ScanEvent) : ∀ (st : ScanState) (n : String),
    ScanEvent.explicitEv n ∈ l → n ∈ (List.foldl stepEv st l).explicit_instantiation := by
  induction l with
  | nil =>
    intro st n h
    cases h
  | cons e rest ih =>
    intro st n h
    rcases List.mem_cons.mp h with h1 | h2
    · subst h1
      refine foldl_explicit_mono rest _ n ?_
      simp only [stepEv, handle_explicit]
      exact mem_setInsert_self n _
    · exact ih _ n h2

theorem instLoop_lookup_of_explicit (cands : List TyInfo) : ∀ (st : ScanState) (n : String),
    n ∈ st.explicit_instantiation →
    dictLookup n (instLoop st cands).implicit_instantiation
      = dictLookup n st.implicit_instantiation := by
  induction cands with
  | nil =>
    intro st n _
    rfl
  | cons c rest ih =>
    intro st n h
    simp only [instLoop]
    by_cases hc : c.isConcreteSpec = false
    · rw [if_pos hc]
    · rw [if_neg hc]
      by_cases hcond : c.defInInputs = true ∧ c.canonName ∉ st.explicit_instantiation
      · rw [if_pos hcond]
        rw [ih { st with
          implicit_instantiation := dictSet c.canonName c.defStub st.implicit_instantiation } n h]
        exact dictLookup_set_ne c.canonName n c.defStub
          (fun hc2 => hcond.2 (hc2 ▸ h)) st.implicit_instantiation
      · rw [if_neg hcond]
        exact ih st n h

theorem instLoop_PE (cands : List TyInfo) : ∀ st : ScanState,
    ScanPE st → ScanPE (instLoop st cands) := by
  induction cands with
  | nil =>
    intro st h
    exact h
  | cons c rest ih =>
    intro st hPE
    simp only [instLoop]
    by_cases hc : c.isConcreteSpec = false
    · rw [if_pos hc]
      exact hPE
    · rw [if_neg hc]
      by_cases hcond : c.defInInputs = true ∧ c.canonName ∉ st.explicit_instantiation
      · rw [if_pos hcond]
        refine ih _ ?_
        intro n hn
        show dictLookup n (dictSet c.canonName c.defStub st.implicit_instantiation) = none
        have hne : n ≠ c.canonName := fun hc2 => hcond.2 (hc2 ▸ hn)
        rw [dictLookup_set_ne c.canonName n c.defStub hne]
        exact hPE n hn
      · rw [if_neg hcond]
        exact ih st hPE

theorem stepEv_PE (st : ScanState) (e : ScanEvent) (h : ScanPE st) : ScanPE (stepEv st e) := by
  cases e with
  | explicitEv m =>
    intro n hn
    simp only [stepEv, handle_explicit] at hn ⊢
    rcases (mem_setInsert n m _).mp hn with h1 | h2
    · rw [h1]
      exact dictLookup_del_self m _
    · by_cases hnm : n = m
      · rw [hnm]
        exact dictLookup_del_self m _
      · rw [dictLookup_del_ne m n hnm _]
        exact h n h2
  | implicitEv p =>
    simp only [stepEv, handle_implicit]
    exact instLoop_PE _ st h

theorem foldl_PE (l : List ScanEvent) : ∀ st : ScanState,
    ScanPE st → ScanPE (List.foldl stepEv st l) := by
  induction l with
  | nil =>
    intro st h
    exact h
  | cons e rest ih =>
    intro st h
    exact ih _ (stepEv_PE st e h)

theorem instLoop_Uniq (cands : List TyInfo) : ∀ st : ScanState,
    ScanUniq st → ScanUniq (instLoop st cands) := by
  induction cands with
  | nil =>
    intro st h
    exact h
  | cons c rest ih =>
    intro st hU
    simp only [instLoop]
    by_cases hc : c.isConcreteSpec = false
    · rw [if_pos hc]
      exact hU
    · rw [if_neg hc]
      by_cases hcond : c.defInInputs = true ∧ c.canonName ∉ st.explicit_instantiation
      · rw [if_pos hcond]
        exact ih _ (nodup_keys_dictSet c.canonName c.defStub st.implicit_instantiation hU)
      · rw [if_neg hcond]
        exact ih st hU

theorem stepEv_Uniq (st : ScanState) (e : ScanEvent) (h : ScanUniq st) : ScanUniq (stepEv st e) := by
  cases e with
  | explicitEv m =>
    exact nodup_keys_dictDel m st.implicit_instantiation h
  | implicitEv p =>
    exact instLoop_Uniq _ st h

theorem foldl_Uniq (l : List ScanEvent) : ∀ st : ScanState,
    ScanUniq st → ScanUniq (List.foldl stepEv st l) := by
  induction l with
  | nil =>
    intro st h
    exact h
  | cons e rest ih =>
    intro st h
    exact ih _ (stepEv_Uniq st e h)

theorem instLoop_Vals (pf : String → String) (cands : List TyInfo) : ∀ st : ScanState,
    ScanVals pf st → (∀ c ∈ cands, c.defStub = pf c.canonName) →
    ScanVals pf (instLoop st cands) := by
  induction cands with
  | nil =>
    intro st h _
    exact h
  | cons c rest ih =>
    intro st hV hC
    simp only [instLoop]
    by_cases hc : c.isConcreteSpec = false
    · rw [if_pos hc]
      exact hV
    · rw [if_neg hc]
      by_cases hcond : c.defInInputs = true ∧ c.canonName ∉ st.explicit_instantiation
      · rw [if_pos hcond]
        refine ih _ ?_ (fun c2 hc2 => hC c2 (List.mem_cons_of_mem c hc2))
        intro x hx
        rcases mem_dictSet x c.canonName c.defStub st.implicit_instantiation hx with h1 | h2
        · rw [h1]
          exact hC c (List.mem_cons_self c rest)
        · exact hV x h2
      · rw [if_neg hcond]
        exact ih st hV (fun c2 hc2 => hC c2 (List.mem_cons_of_mem c hc2))

theorem stepEv_Vals (pf : String → String) (st : ScanState) (e : ScanEvent)
    (hV : ScanVals pf st)
    (hc : ∀ p, e = ScanEvent.implicitEv p → ∀ c ∈ possible_instances p, c.defStub = pf c.canonName) :
    ScanVals pf (stepEv st e) := by
  cases e with
  | explicitEv n =>
    intro x hx
    simp only [stepEv, handle_explicit] at hx
    exact hV x (mem_dictDel x n _ hx)
  | implicitEv p =>
    simp only [stepEv, handle_implicit]
    exact instLoop_Vals pf _ st hV (hc p rfl)

theorem foldl_Vals (pf : String → String) (l : List ScanEvent) : ∀ st : ScanState,
    ScanVals pf st → evCoherent pf l → ScanVals pf (List.foldl stepEv st l) := by
  induction l with
  | nil =>
    intro st h _
    exact h
  | cons e rest ih =>
    intro st hV hcoh
    rw [List.foldl_cons]
    refine ih _ (stepEv_Vals pf st e hV ?_) ?_
    · intro p hep c hcp
      refine hcoh p ?_ c hcp
      rw [← hep]
      exact List.mem_cons_self e rest
    · intro p hp c hcp
      exact hcoh p (List.mem_cons_of_mem e hp) c hcp

theorem instLoop_keys_mono (cands : List TyInfo) : ∀ (st : ScanState) (k : String),
    k ∈ dictKeys st.implicit_instantiation →
    k ∈ dictKeys (instLoop st cands).implicit_instantiation := by
  induction cands with
  | nil =>
    intro st k h
    exact h
  | cons c rest ih =>
    intro st k h
    simp only [instLoop]
    by_cases hc : c.isConcreteSpec = false
    · rw [if_pos hc]
      exact h
    · rw [if_neg hc]
      by_cases hcond : c.defInInputs = true ∧ c.canonName ∉ st.explicit_instantiation
      · rw [if_pos hcond]
        exact ih _ k (mem_keys_dictSet_mono c.canonName k c.defStub _ h)
      · rw [if_neg hcond]
        exact ih st k h

theorem stepEv_disj (st : ScanState) (e : ScanEvent) (k : String)
    (h : k ∈ st.explicit_instantiation ∨ k ∈ dictKeys st.implicit_instantiation) :
    k ∈ (stepEv st e).explicit_instantiation ∨ k ∈ dictKeys (stepEv st e).implicit_instantiation := by
  cases e with
  | explicitEv m =>
    simp only [stepEv, handle_explicit]
    rcases h with h1 | h2
    · exact Or.inl (mem_setInsert_mono k m _ h1)
    · by_cases hkm : k = m
      · rw [hkm]
        exact Or.inl (mem_setInsert_self m _)
      · exact Or.inr (mem_keys_dictDel k m _ h2 hkm)
  | implicitEv p =>
    simp only [stepEv, handle_implicit]
    rcases h with h1 | h2
    · rw [instLoop_explicit]
      exact Or.inl h1
    · exact Or.inr (instLoop_keys_mono _ st k h2)

theorem foldl_disj (l : List ScanEvent) : ∀ (st : ScanState) (k : String),
    (k ∈ st.explicit_instantiation ∨ k ∈ dictKeys st.implicit_instantiation) →
    (k ∈ (List.foldl stepEv st l).explicit_instantiation
      ∨ k ∈ dictKeys (List.foldl stepEv st l).implicit_instantiation) := by
  induction l with
  | nil =>
    intro st k h
    exact h
  | cons e rest ih =>
    intro st k h
    exact ih _ k (stepEv_disj st e k h)

theorem instLoop_records (cands : List TyInfo) : ∀ (st : ScanState) (t : TyInfo),
    t ∈ cands.takeWhile (fun c => c.isConcreteSpec) → t.defInInputs = true →
    t.canonName ∈ st.explicit_instantiation
      ∨ t.canonName ∈ dictKeys (instLoop st cands).implicit_instantiation := by
  induction cands with
  | nil =>
    intro st t ht
    cases ht
  | cons c rest ih =>
    intro st t ht hdef
    by_cases hc : c.isConcreteSpec = false
    · rw [List.takeWhile_cons] at ht
      rw [hc] at ht
      cases ht
    · have hc2 : c.isConcreteSpec = true := by
        cases hcs : c.isConcreteSpec
        · exact absurd hcs hc
        · rfl
      rw [List.takeWhile_cons, hc2, if_pos rfl] at ht
      simp only [instLoop, if_neg hc]
      rcases List.mem_cons.mp ht with h1 | h2
      · subst h1
        by_cases hE : t.canonName ∈ st.explicit_instantiation
        · exact Or.inl hE
        · rw [if_pos ⟨hdef, hE⟩]
          refine Or.inr (instLoop_keys_mono rest _ t.canonName ?_)
          exact mem_keys_dictSet_self t.canonName t.defStub _
      · by_cases hcond : c.defInInputs = true ∧ c.canonName ∉ st.explicit_instantiation
        · rw [if_pos hcond]
          exact ih { st with
            implicit_instantiation := dictSet c.canonName c.defStub st.implicit_instantiation } t h2 hdef
        · rw [if_neg hcond]
          exact ih st t h2 hdef

theorem foldl_records (l : List ScanEvent) : ∀ (st : ScanState) (p : NData) (t : TyInfo),
    ScanEvent.implicitEv p ∈ l →
    t ∈ (possible_instances p).takeWhile (fun c => c.isConcreteSpec) →
    t.defInInputs = true →
    t.canonName ∈ (List.foldl stepEv st l).explicit_instantiation
      ∨ t.canonName ∈ dictKeys (List.foldl stepEv st l).implicit_instantiation := by
  induction l with
  | nil =>
    intro st p t h
    cases h
  | cons e rest ih =>
    intro st p t hmem htw hdef
    rcases List.mem_cons.mp hmem with h1 | h2
    · subst h1
      refine foldl_disj rest _ t.canonName ?_
      rcases instLoop_records (possible_instances p) st t htw hdef with h3 | h4
      · refine Or.inl ?_
        simp only [stepEv, handle_implicit]
        rw [instLoop_explicit]
        exact h3
      · exact Or.inr h4
    · exact ih _ p t h2 htw hdef

theorem instLoop_noop (cands : List TyInfo) : ∀ st : ScanState,
    ScanUniq st →
    (∀ t ∈ cands.takeWhile (fun c => c.isConcreteSpec), t.defInInputs = true →
      t.canonName ∉ st.explicit_instantiation →
      dictLookup t.canonName st.implicit_instantiation = some t.defStub) →
    instLoop st cands = st := by
  induction cands with
  | nil =>
    intro st _ _
    rfl
  | cons c rest ih =>
    intro st hU hT
    simp only [instLoop]
    by_cases hc : c.isConcreteSpec = false
    · rw [if_pos hc]
    · rw [if_neg hc]
      have hc2 : c.isConcreteSpec = true := by
        cases hcs : c.isConcreteSpec
        · exact absurd hcs hc
        · rfl
      have hTrest : ∀ t ∈ rest.takeWhile (fun c => c.isConcreteSpec), t.defInInputs = true →
          t.canonName ∉ st.explicit_instantiation →
          dictLookup t.canonName st.implicit_instantiation = some t.defStub := by
        intro t ht
        refine hT t ?_
        rw [List.takeWhile_cons, hc2, if_pos rfl]
        exact List.mem_cons_of_mem c ht
      by_cases hcond : c.defInInputs = true ∧ c.canonName ∉ st.explicit_instantiation
      · rw [if_pos hcond]
        have hhead : c ∈ (c :: rest).takeWhile (fun c => c.isConcreteSpec) := by
          rw [List.takeWhile_cons, hc2, if_pos rfl]
          exact List.mem_cons_self c _
        have hlk : dictLookup c.canonName st.implicit_instantiation = some c.defStub :=
          hT c hhead hcond.1 hcond.2
        have hset : dictSet c.canonName c.defStub st.implicit_instantiation
            = st.implicit_instantiation := dictSet_of_lookup_eq _ _ _ hU hlk
        have hst : ({ st with
            implicit_instantiation := dictSet c.canonName c.defStub st.implicit_instantiation } : ScanState) = st := by
          rw [hset]
        rw [hst]
        exact ih st hU hTrest
      · rw [if_neg hcond]
        exact ih st hU hTrest

theorem foldl_noop (l : List ScanEvent) : ∀ st : ScanState,
    (∀ e ∈ l, stepEv st e = st) → List.foldl stepEv st l = st := by
  induction l with
  | nil =>
    intro st _
    rfl
  | cons e rest ih =>
    intro st h
    rw [List.foldl_cons, h e (List.mem_cons_self e rest)]
    exact ih st (fun e2 he2 => h e2 (List.mem_cons_of_mem e he2))

theorem scan_noop_step (l : List ScanEvent) (pf : String → String) (st1 : ScanState)
    (hcoh : evCoherent pf l)
    (hPE : ScanPE st1) (hU : ScanUniq st1) (hV : ScanVals pf st1)
    (hCl : ∀ n, ScanEvent.explicitEv n ∈ l → n ∈ st1.explicit_instantiation)
    (hR : ∀ p t, ScanEvent.implicitEv p ∈ l →
      t ∈ (possible_instances p).takeWhile (fun c => c.isConcreteSpec) → t.defInInputs = true →
      t.canonName ∈ st1.explicit_instantiation ∨ t.canonName ∈ dictKeys st1.implicit_instantiation) :
    ∀ e ∈ l, stepEv st1 e = st1 := by
  intro e he
  cases e with
  | explicitEv n =>
    have hE : setInsert n st1.explicit_instantiation = st1.explicit_instantiation :=
      setInsert_of_mem n _ (hCl n he)
    have hI : dictDel n st1.implicit_instantiation = st1.implicit_instantiation :=
      dictDel_of_lookup_none n _ (hPE n (hCl n he))
    simp only [stepEv, handle_explicit]
    rw [hE, hI]
  | implicitEv p =>
    simp only [stepEv, handle_implicit]
    refine instLoop_noop _ st1 hU ?_
    intro t ht hdef hnE
    rcases hR p t he ht hdef with h1 | h2
    · exact absurd h1 hnE
    · have hsome : (dictLookup t.canonName st1.implicit_instantiation).isSome := by
        by_contra hc
        exact (dictLookup_eq_none_iff _ _).mp (Option.not_isSome_iff_eq_none.mp hc) h2
      rcases Option.isSome_iff_exists.mp hsome with ⟨v, hv⟩
      have hvv : v = pf t.canonName := hV (t.canonName, v) (dictLookup_mem _ _ _ hv)
      have hstub : t.defStub = pf t.canonName :=
        hcoh p he t ((List.takeWhile_sublist _).subset ht)
      rw [hv, hvv, hstub]

/-- C3: explicit wins. handle_explicit removes any implicit entry for the
name it records; an implicit use of a name already in the explicit set leaves
every lookup of that name unchanged; at the end of the scan no explicitly
instantiated name survives in the implicit map; and resuming the detection
scan over the same AST from the finished state changes nothing, i.e. running
the scan twice yields the same explicit and implicit sets as running it once
— under the hypothesis that the AST determines each candidate's stub prefix
from its canonical type name (the program computes the prefix from the
template definition cursor, which the canonical name identifies). -/
theorem explicit_wins_idempotent (t : NCursor) (pf : String → String)
    (hcoh : evCoherent pf (astEvents t)) :
    (∀ (st : ScanState) (n : String),
      dictLookup n (handle_explicit st n).implicit_instantiation = none)
    ∧ (∀ (st : ScanState) (p : NData) (n : String), n ∈ st.explicit_instantiation →
        dictLookup n (handle_implicit st p).implicit_instantiation
          = dictLookup n st.implicit_instantiation)
    ∧ (∀ n ∈ (scanAst t).explicit_instantiation,
        dictLookup n (scanAst t).implicit_instantiation = none)
    ∧ scanFrom (scanAst t) t = scanAst t := by
  have hPEe : ScanPE { explicit_instantiation := [], implicit_instantiation := [] } := by
    intro n hn
    cases hn
  refine ⟨?_, ?_, ?_, ?_⟩
  · intro st n
    simp only [handle_explicit]
    exact dictLookup_del_self n _
  · intro st p n h
    simp only [handle_implicit]
    exact instLoop_lookup_of_explicit _ st n h
  · intro n hn
    exact foldl_PE (astEvents t) _ hPEe n hn
  · unfold scanFrom
    refine foldl_noop (astEvents t) (scanAst t)
      (scan_noop_step (astEvents t) pf (scanAst t) hcoh ?_ ?_ ?_ ?_ ?_)
    · exact foldl_PE (astEvents t) _ hPEe
    · exact foldl_Uniq (astEvents t) _ List.nodup_nil
    · exact foldl_Vals pf (astEvents t) _ (fun x hx => by cases hx) hcoh
    · intro n hn
      exact foldl_explicit_closure (astEvents t) _ n hn
    · intro p ti hp htw hdef
      exact foldl_records (astEvents t) _ p ti hp htw hdef

/-- Witness for C3 at the normalizer example AST: one implicit use of Box of
int under a parameter declaration and one explicit instantiation of Vec of
int; the scan is idempotent and computes the expected sets. -/
theorem explicit_wins_idempotent_witness :
    evCoherent (fun _ => "extern template struct") (astEvents n3tu)
    ∧ scanFrom (scanAst n3tu) n3tu = scanAst n3tu
    ∧ (scanAst n3tu).implicit_instantiation = [("Box<int>", "extern template struct")]
    ∧ (scanAst n3tu).explicit_instantiation = ["Vec<int>"] := by
  have hcoh : evCoherent (fun _ => "extern template struct") (astEvents n3tu) := by
    intro p hp ti hti
    have hev : astEvents n3tu = [ScanEvent.implicitEv n3parm, ScanEvent.explicitEv "Vec<int>"] := rfl
    rw [hev] at hp
    rcases List.mem_cons.mp hp with h1 | h2
    · injection h1 with h1
      subst h1
      have hpi : possible_instances n3parm = [boxTyC2] := rfl
      rw [hpi] at hti
      rw [List.mem_singleton.mp hti]
      rfl
    · rcases List.mem_cons.mp h2 with h3 | h4
      · cases h3
      · cases h4
  exact ⟨hcoh,
    (explicit_wins_idempotent n3tu (fun _ => "extern template struct") hcoh).2.2.2,
    rfl, rfl⟩
